import Mathlib

/-!
Shallow embedding of the benchmark-orchestration harness
(`bench/comprehensive_benchmark.py`, `bench/benchmark_runner.py`,
`bench/python_regex_bench.py`) and proofs about the spec's claims.

Python machine floats are modelled as exact rationals extended with the
IEEE special values (`inf`, `-inf`, `nan`); rounding of decimal literals
to binary doubles, and overflow of out-of-range literals, are idealised
away (no claim here depends on them).  Stateful accumulation into the
per-algorithm result dictionaries is modelled by explicit state passing
over a total function `Nat → Series α` keyed by algorithm id.
-/

namespace Hashira

/-! ## Python `float(...)` parsing, as used on captured stdout -/

/-- A Python float value: an exact finite rational, a signed infinity, or NaN. -/
inductive PyFloat where
  | finite (q : ℚ)
  | inf (neg : Bool)
  | nan
  deriving DecidableEq

/-- Numeric value of a decimal digit character. -/
def digitVal (c : Char) : Nat := c.toNat - 48

/-- Value of a big-endian list of decimal digit characters. -/
def digitsToNat (l : List Char) : Nat := l.foldl (fun n c => 10 * n + digitVal c) 0

/-- CPython accepts single underscores in a numeric string only when flanked
by digits on both sides (PEP 515).  `underscoresOk` checks that rule. -/
def underscoresOk : List Char → Bool
  | [] => true
  | '_' :: _ => false
  | [_] => true
  | a :: '_' :: c :: rest => a.isDigit && c.isDigit && underscoresOk (c :: rest)
  | _ :: rest => underscoresOk rest

/-- A nonempty all-digit chunk, as a natural number. -/
def parseNatDigits (l : List Char) : Option Nat :=
  if l ≠ [] ∧ l.all Char.isDigit then some (digitsToNat l) else none

/-- The mantissa part of a float literal: `digits`, `digits.`, `.digits` or
`digits.digits` (at least one digit overall). -/
def parseMantissa (l : List Char) : Option ℚ :=
  let p := l.span Char.isDigit
  match p.2 with
  | [] => if p.1 = [] then none else some (digitsToNat p.1 : ℚ)
  | '.' :: fp =>
    if fp.all Char.isDigit ∧ (p.1 ≠ [] ∨ fp ≠ []) then
      some ((digitsToNat p.1 : ℚ) + (digitsToNat fp : ℚ) / (10 : ℚ) ^ fp.length)
    else none
  | _ => none

/-- The exponent part of a float literal: an optionally signed digit string. -/
def parseExp (l : List Char) : Option Int :=
  match l with
  | '+' :: r => (parseNatDigits r).map (fun n => (n : Int))
  | '-' :: r => (parseNatDigits r).map (fun n => -(n : Int))
  | r => (parseNatDigits r).map (fun n => (n : Int))

/-- Split a literal at the first `e`/`E`, if any. -/
def splitAtExpChar : List Char → List Char × Option (List Char)
  | [] => ([], none)
  | c :: rest =>
    if c = 'e' ∨ c = 'E' then ([], some rest)
    else
      let p := splitAtExpChar rest
      (c :: p.1, p.2)

/-- An unsigned float literal: mantissa with an optional decimal exponent. -/
def parseUnsigned (l : List Char) : Option ℚ :=
  let p := splitAtExpChar l
  match parseMantissa p.1, p.2 with
  | some q, none => some q
  | some q, some ec => (parseExp ec).map (fun e => q * (10 : ℚ) ^ e)
  | none, _ => none

/-- Python `float(s)` on an already-stripped character list: an optional
sign, then case-insensitive `inf`/`infinity`/`nan` or a decimal literal
(with PEP 515 underscores).  `none` models `ValueError`. -/
def pyFloatOfChars (l : List Char) : Option PyFloat :=
  let sp : Bool × List Char :=
    match l with
    | '+' :: r => (false, r)
    | '-' :: r => (true, r)
    | r => (false, r)
  let low := sp.2.map Char.toLower
  if low = "inf".toList ∨ low = "infinity".toList then some (.inf sp.1)
  else if low = "nan".toList then some .nan
  else if underscoresOk sp.2 then
    (parseUnsigned (sp.2.filter (fun c => c ≠ '_'))).map
      (fun q => .finite (if sp.1 then -q else q))
  else none

/-- Python `str.strip()`: drop whitespace at both ends. -/
def pyStrip (s : String) : List Char :=
  ((s.toList.dropWhile Char.isWhitespace).reverse.dropWhile Char.isWhitespace).reverse

/-- Python `float(s.strip())` (`float` itself also ignores surrounding
whitespace, so stripping first is equivalent). -/
def pyFloat (s : String) : Option PyFloat := pyFloatOfChars (pyStrip s)

/-! ## `run_algorithm` (comprehensive_benchmark.py, lines 50-68) -/

/-- Outcome of one `subprocess.run` invocation of the external executable:
the spawn raised, the 30 s deadline expired (`subprocess.TimeoutExpired`),
or the process exited with a return code and captured stdout. -/
inductive RunOutcome where
  | spawnFailure
  | timeoutExpired
  | exited (returncode : Int) (stdout : String)

/-- `run_algorithm`: returns `float(result.stdout.strip())` when the process
exited with status 0 and stdout parses; `None` on a non-zero exit status, a
parse failure (`ValueError`), a timeout, or any other exception. -/
def run_algorithm (r : RunOutcome) : Option PyFloat :=
  match r with
  | .spawnFailure => none
  | .timeoutExpired => none
  | .exited rc out => if rc ≠ 0 then none else pyFloat out

/-! ## Subprocess call construction in the two sweep drivers -/

/-- The configuration of one `subprocess.run` call: argument vector and the
`timeout=` keyword (in seconds), `none` when the keyword is absent. -/
structure SubprocessCall where
  cmd : List String
  timeout : Option Nat
  deriving DecidableEq

/-- The call built by `run_algorithm` in comprehensive_benchmark.py:
`subprocess.run([EXECUTABLE, "--benchmark", str(algo_id), text_file, pattern],
..., timeout=30)`. -/
def comprehensive_call (executable : String) (algo_id : Nat)
    (text_file pattern : String) : SubprocessCall :=
  ⟨[executable, "--benchmark", toString algo_id, text_file, pattern], some 30⟩

/-- The call built inside `run_benchmark` in benchmark_runner.py:
`subprocess.run([EXECUTABLE, "--benchmark", str(algo_id), filename, pattern],
capture_output=True, text=True)` — no `timeout=` keyword. -/
def runner_call (algo_id : Nat) (filename pattern : String) : SubprocessCall :=
  ⟨["./bin/dna_pattern_matching", "--benchmark", toString algo_id, filename, pattern], none⟩

/-! ## Sweep orchestration (comprehensive_benchmark.py, lines 70-141)

The per-algorithm result dictionaries
`results = {algo_id: {"times": [], "sizes": []} for ...}` (size sweep) and
`{algo_id: {"times": [], "pattern_lens": []} for ...}` (pattern-length
sweep) are modelled as a total function `Nat → Series α` keyed by algorithm
id; `Series.xs` stands for the `"sizes"` / `"pattern_lens"` list.  The
outcome type is kept polymorphic (`α`); the program instantiates it with
the parsed stdout float. -/

/-- One algorithm's accumulated samples: the `"times"` list and the
independent-variable (`"sizes"` / `"pattern_lens"`) list. -/
structure Series (α : Type) where
  times : List α
  xs : List Nat
  deriving DecidableEq

/-- `SIZES` (comprehensive_benchmark.py, line 22). -/
def SIZES : List Nat := [1000, 5000, 10000, 50000, 100000, 500000, 1000000]

/-- `PATTERN_LENGTHS` (comprehensive_benchmark.py, line 23). -/
def PATTERN_LENGTHS : List Nat := [5, 10, 20, 50, 100]

/-- The keys of `ALGORITHMS` (comprehensive_benchmark.py, lines 24-32), in
dictionary order. -/
def ALGORITHM_IDS : List Nat := [15, 3, 4, 5, 6, 11, 12]

/-- The inner-loop body for one algorithm at one configuration, acting on
that algorithm's own series: `continue` when skipped, append the time and
the independent-variable value together when the runner succeeded, append
nothing when it returned `None`. -/
def seriesStep (outcome : Option α) (x : Nat) (sk : Bool) (s : Series α) : Series α :=
  if sk then s
  else match outcome with
    | some t => ⟨s.times ++ [t], s.xs ++ [x]⟩
    | none => s

/-- The inner-loop body as a state update of the whole results dictionary:
only the entry of the current algorithm id changes. -/
def stepAlgo (runner : Nat → Nat → Option α) (skip : Nat → Bool) (x : Nat)
    (res : Nat → Series α) (a : Nat) : Nat → Series α :=
  fun b => if b = a then seriesStep (runner a x) x (skip a) (res a) else res b

/-- One iteration of the outer configuration loop: run every algorithm of
the catalog at configuration `x`. -/
def stepConfig (runner : Nat → Nat → Option α) (skip : Nat → Nat → Bool)
    (res : Nat → Series α) (x : Nat) : Nat → Series α :=
  ALGORITHM_IDS.foldl (stepAlgo runner (fun a => skip a x) x) res

/-- A whole sweep: fold the configuration list over the initially-empty
results dictionary. -/
def runSweep (runner : Nat → Nat → Option α) (skip : Nat → Nat → Bool)
    (configs : List Nat) : Nat → Series α :=
  configs.foldl (stepConfig runner skip) (fun _ => ⟨[], []⟩)

/-- `benchmark_varying_text_size(pattern_len)`: sweep over `SIZES`; the
applicability filter is `algo_id == 6 and pattern_len > 64` (Shift-Or
pattern-length ceiling), independent of the swept size.  The runner
argument abstracts `run_algorithm` applied to the generated corpus file
and embedded pattern for the given (algorithm, size). -/
def benchmark_varying_text_size (pattern_len : Nat)
    (runner : Nat → Nat → Option α) : Nat → Series α :=
  runSweep runner (fun a _ => decide (a = 6 ∧ 64 < pattern_len)) SIZES

/-- `benchmark_varying_pattern_length`: sweep over `PATTERN_LENGTHS`; the
applicability filter is `algo_id == 6 and plen > 64` on the swept pattern
length. -/
def benchmark_varying_pattern_length (runner : Nat → Nat → Option α) :
    Nat → Series α :=
  runSweep runner (fun a plen => decide (a = 6 ∧ 64 < plen)) PATTERN_LENGTHS

/-- One algorithm's series on its own, folding the configuration list. -/
def sweepAlgoFrom (runner : Nat → Nat → Option α) (skip : Nat → Nat → Bool)
    (a : Nat) (s : Series α) (configs : List Nat) : Series α :=
  configs.foldl (fun s x => seriesStep (runner a x) x (skip a x) s) s

/-- The index-aligned pairs `(independent variable, time)` of a series, as
zipped by the downstream consumers. -/
def Series.pairs {α : Type} (s : Series α) : List (Nat × α) := s.xs.zip s.times

/-- A series is aligned with a per-configuration outcome function `f` when
both lists have the same length and the i-th time is exactly the successful
outcome at the i-th independent-variable value. -/
def SeriesAligned {α : Type} (f : Nat → Option α) (s : Series α) : Prop :=
  s.times.length = s.xs.length ∧ s.xs.map f = s.times.map some

lemma sweepAlgoFrom_nil {α : Type} (runner : Nat → Nat → Option α)
    (skip : Nat → Nat → Bool) (a : Nat) (s : Series α) :
    sweepAlgoFrom runner skip a s [] = s := rfl

lemma sweepAlgoFrom_cons {α : Type} (runner : Nat → Nat → Option α)
    (skip : Nat → Nat → Bool) (a : Nat) (s : Series α) (c : Nat) (configs : List Nat) :
    sweepAlgoFrom runner skip a s (c :: configs) =
      sweepAlgoFrom runner skip a (seriesStep (runner a c) c (skip a c) s) configs := rfl

lemma foldl_stepAlgo_apply {α : Type} (runner : Nat → Nat → Option α)
    (sk : Nat → Bool) (x : Nat) :
    ∀ (ids : List Nat), ids.Nodup → ∀ (res : Nat → Series α) (b : Nat),
      ids.foldl (stepAlgo runner sk x) res b =
        if b ∈ ids then seriesStep (runner b x) x (sk b) (res b) else res b := by
  intro ids
  induction ids with
  | nil => intro _ res b; simp
  | cons i rest ih =>
    intro hnd res b
    rw [List.nodup_cons] at hnd
    simp only [List.foldl_cons]
    rw [ih hnd.2]
    by_cases hb : b ∈ rest
    · have hbi : b ≠ i := fun h => hnd.1 (h ▸ hb)
      simp [stepAlgo, hb, hbi]
    · by_cases hbi : b = i
      · subst hbi
        simp [stepAlgo, hb]
      · simp [stepAlgo, hb, hbi]

lemma foldl_stepConfig_apply {α : Type} (runner : Nat → Nat → Option α)
    (skip : Nat → Nat → Bool) :
    ∀ (configs : List Nat) (res : Nat → Series α) (a : Nat),
      configs.foldl (stepConfig runner skip) res a =
        if a ∈ ALGORITHM_IDS then sweepAlgoFrom runner skip a (res a) configs
        else res a := by
  intro configs
  induction configs with
  | nil => intro res a; simp [sweepAlgoFrom_nil]
  | cons c rest ih =>
    intro res a
    simp only [List.foldl_cons]
    rw [ih]
    have hnd : ALGORITHM_IDS.Nodup := by decide
    have hstep : stepConfig runner skip res c a =
        if a ∈ ALGORITHM_IDS then seriesStep (runner a c) c (skip a c) (res a)
        else res a := by
      exact foldl_stepAlgo_apply runner _ c ALGORITHM_IDS hnd res a
    by_cases ha : a ∈ ALGORITHM_IDS
    · simp only [ha, if_true] at hstep ⊢
      rw [hstep, sweepAlgoFrom_cons]
    · simp only [ha, if_false] at hstep ⊢
      rw [hstep]

lemma runSweep_apply {α : Type} (runner : Nat → Nat → Option α)
    (skip : Nat → Nat → Bool) (configs : List Nat) (a : Nat) :
    runSweep runner skip configs a =
      if a ∈ ALGORITHM_IDS then sweepAlgoFrom runner skip a ⟨[], []⟩ configs
      else ⟨[], []⟩ := by
  simp only [runSweep]
  rw [foldl_stepConfig_apply]

lemma seriesStep_aligned {α : Type} {f : Nat → Option α} {s : Series α}
    (x : Nat) (sk : Bool) (h : SeriesAligned f s) :
    SeriesAligned f (seriesStep (f x) x sk s) := by
  rcases h with ⟨h1, h2⟩
  cases sk with
  | true => exact ⟨h1, h2⟩
  | false =>
    simp only [seriesStep, Bool.false_eq_true, if_false]
    cases hfx : f x with
    | none => exact ⟨h1, h2⟩
    | some t =>
      refine ⟨by simp [h1], ?_⟩
      simp [h2, hfx]

lemma sweepAlgoFrom_aligned {α : Type} (runner : Nat → Nat → Option α)
    (skip : Nat → Nat → Bool) (a : Nat) :
    ∀ (configs : List Nat) (s : Series α),
      SeriesAligned (runner a) s →
      SeriesAligned (runner a) (sweepAlgoFrom runner skip a s configs) := by
  intro configs
  induction configs with
  | nil => intro s h; exact h
  | cons c rest ih =>
    intro s h
    rw [sweepAlgoFrom_cons]
    exact ih _ (seriesStep_aligned c (skip a c) h)

lemma runSweep_aligned {α : Type} (runner : Nat → Nat → Option α)
    (skip : Nat → Nat → Bool) (configs : List Nat) (a : Nat) :
    SeriesAligned (runner a) (runSweep runner skip configs a) := by
  rw [runSweep_apply]
  by_cases ha : a ∈ ALGORITHM_IDS
  · simp only [ha, if_true]
    exact sweepAlgoFrom_aligned runner skip a configs _ ⟨rfl, rfl⟩
  · simp only [ha, if_false]
    exact ⟨rfl, rfl⟩

lemma mem_xs_of_aligned {α : Type} {f : Nat → Option α} {s : Series α}
    (h : SeriesAligned f s) {x : Nat} (hx : x ∈ s.xs) : ∃ t, f x = some t := by
  have hmem : f x ∈ s.xs.map f := List.mem_map_of_mem f hx
  rw [h.2] at hmem
  rcases List.mem_map.1 hmem with ⟨t, _, ht⟩
  exact ⟨t, ht.symm⟩

lemma mem_times_of_aligned {α : Type} {f : Nat → Option α} {s : Series α}
    (h : SeriesAligned f s) {t : α} (ht : t ∈ s.times) : ∃ x, f x = some t := by
  have hmem : some t ∈ s.times.map some := List.mem_map_of_mem some ht
  rw [← h.2] at hmem
  rcases List.mem_map.1 hmem with ⟨x, _, hx⟩
  exact ⟨x, hx⟩

lemma seriesStep_pairs_mono {α : Type} {f : Nat → Option α} {s : Series α}
    (h : SeriesAligned f s) (x : Nat) (sk : Bool) {p : Nat × α}
    (hp : p ∈ s.pairs) : p ∈ (seriesStep (f x) x sk s).pairs := by
  cases sk with
  | true => exact hp
  | false =>
    simp only [seriesStep, Bool.false_eq_true, if_false]
    cases hfx : f x with
    | none => exact hp
    | some t =>
      simp only [Series.pairs] at hp ⊢
      rw [List.zip_append h.1.symm]
      exact List.mem_append_left _ hp

lemma seriesStep_pairs_self {α : Type} {f : Nat → Option α} {s : Series α}
    (h : SeriesAligned f s) {x : Nat} {t : α} (hfx : f x = some t) :
    (x, t) ∈ (seriesStep (f x) x false s).pairs := by
  simp only [seriesStep, Bool.false_eq_true, if_false, hfx]
  simp only [Series.pairs]
  rw [List.zip_append h.1.symm]
  exact List.mem_append_right _ (by simp)

lemma sweepAlgoFrom_pairs_mono {α : Type} (runner : Nat → Nat → Option α)
    (skip : Nat → Nat → Bool) (a : Nat) :
    ∀ (configs : List Nat) (s : Series α), SeriesAligned (runner a) s →
      ∀ {p : Nat × α}, p ∈ s.pairs →
        p ∈ (sweepAlgoFrom runner skip a s configs).pairs := by
  intro configs
  induction configs with
  | nil => intro s _ p hp; exact hp
  | cons c rest ih =>
    intro s h p hp
    rw [sweepAlgoFrom_cons]
    exact ih _ (seriesStep_aligned c (skip a c) h) (seriesStep_pairs_mono h c (skip a c) hp)

lemma sweepAlgoFrom_complete {α : Type} (runner : Nat → Nat → Option α)
    (skip : Nat → Nat → Bool) (a : Nat) :
    ∀ (configs : List Nat) (s : Series α), SeriesAligned (runner a) s →
      ∀ {c : Nat} {t : α}, c ∈ configs → skip a c = false → runner a c = some t →
        (c, t) ∈ (sweepAlgoFrom runner skip a s configs).pairs := by
  intro configs
  induction configs with
  | nil => intro s _ c t hc; exact absurd hc (List.not_mem_nil c)
  | cons c' rest ih =>
    intro s h c t hc hsk hrun
    rw [sweepAlgoFrom_cons]
    rcases List.mem_cons.1 hc with hcc | hcrest
    · subst hcc
      rw [hsk]
      exact sweepAlgoFrom_pairs_mono runner skip a rest _
        (seriesStep_aligned c false h) (seriesStep_pairs_self h hrun)
    · exact ih _ (seriesStep_aligned c' (skip a c') h) hcrest hsk hrun

lemma sweepAlgoFrom_xs_skip {α : Type} (runner : Nat → Nat → Option α)
    (skip : Nat → Nat → Bool) (a : Nat) :
    ∀ (configs : List Nat) (s : Series α) (x : Nat),
      x ∈ (sweepAlgoFrom runner skip a s configs).xs →
      x ∈ s.xs ∨ skip a x = false := by
  intro configs
  induction configs with
  | nil => intro s x hx; exact Or.inl hx
  | cons c rest ih =>
    intro s x hx
    rw [sweepAlgoFrom_cons] at hx
    rcases ih _ x hx with hmem | hsk
    · by_cases hsk' : skip a c
      · simp only [seriesStep, hsk', if_true] at hmem
        exact Or.inl hmem
      · simp only [seriesStep, hsk', if_false] at hmem
        cases hrun : runner a c with
        | none => rw [hrun] at hmem; exact Or.inl hmem
        | some t =>
          rw [hrun] at hmem
          simp only at hmem
          rcases List.mem_append.1 hmem with h1 | h2
          · exact Or.inl h1
          · rcases List.mem_singleton.1 h2 with rfl
            exact Or.inr (by simpa using hsk')
    · exact Or.inr hsk

lemma sweepAlgoFrom_runner_congr {α : Type} (runner runner' : Nat → Nat → Option α)
    (skip : Nat → Nat → Bool) (a : Nat) (hagree : ∀ x, runner a x = runner' a x) :
    ∀ (configs : List Nat) (s : Series α),
      sweepAlgoFrom runner skip a s configs = sweepAlgoFrom runner' skip a s configs := by
  intro configs
  induction configs with
  | nil => intro s; rfl
  | cons c rest ih =>
    intro s
    rw [sweepAlgoFrom_cons, sweepAlgoFrom_cons, hagree c, ih]

lemma runSweep_runner_congr {α : Type} (runner runner' : Nat → Nat → Option α)
    (skip : Nat → Nat → Bool) (configs : List Nat) (a : Nat)
    (hagree : ∀ x, runner a x = runner' a x) :
    runSweep runner skip configs a = runSweep runner' skip configs a := by
  rw [runSweep_apply, runSweep_apply]
  by_cases ha : a ∈ ALGORITHM_IDS
  · simp only [ha, if_true]
    exact sweepAlgoFrom_runner_congr runner runner' skip a hagree configs _
  · simp only [ha, if_false]

/-! ## Pattern embedding (comprehensive_benchmark.py lines 86-88,
benchmark_runner.py lines 45-47)

`start = random.randint(0, max(0, size - pattern_len))` followed by
`pattern = seq[start:start+pattern_len]`.  The random choice is modelled by
its support: `random.randint(0, u)` draws uniformly from the integers
`0..u`.  `max(0, size - pattern_len)` over Python ints equals truncated
subtraction over `Nat`. -/

/-- The upper bound handed to `random.randint` in the size sweep:
`max(0, size - pattern_len)`. -/
def embedOffsetUpper (size pattern_len : Nat) : Nat := size - pattern_len

/-- The support of the offset choice: all integers `randint(0, u)` can
return. -/
def embedOffsets (size pattern_len : Nat) : Finset Nat :=
  Finset.Icc 0 (embedOffsetUpper size pattern_len)

/-- `seq[start:start+pattern_len]` on a character list. -/
def embed_pattern (seq : List Char) (pattern_len start : Nat) : List Char :=
  (seq.drop start).take pattern_len

/-! ## Complexity fitting (comprehensive_benchmark.py lines 296-314)

`plot_complexity_verification` guards on `if data["times"] and
data["sizes"]:` and then `if len(sizes) > 1:` before calling
`np.polyfit(np.log(sizes), np.log(times), 1)`.  `np.polyfit(u, v, 1)` is
ordinary least squares for `v ≈ slope·u + intercept`; it is modelled by
the closed-form normal-equation solution over exact rationals, and the
(real-valued, strictly monotone) `np.log` is abstracted as an explicit
function parameter `log` so that every definition stays executable. -/

/-- Number of points of the least-squares input. -/
def fitN (pts : List (ℚ × ℚ)) : ℚ := pts.length

/-- `Σ u`. -/
def fitSu (pts : List (ℚ × ℚ)) : ℚ := (pts.map Prod.fst).sum

/-- `Σ v`. -/
def fitSv (pts : List (ℚ × ℚ)) : ℚ := (pts.map Prod.snd).sum

/-- `Σ u²`. -/
def fitSuu (pts : List (ℚ × ℚ)) : ℚ := (pts.map (fun p => p.1 * p.1)).sum

/-- `Σ u·v`. -/
def fitSuv (pts : List (ℚ × ℚ)) : ℚ := (pts.map (fun p => p.1 * p.2)).sum

/-- Determinant of the 2×2 normal-equation system, `n·Σu² - (Σu)²`;
nonzero exactly when the `u` values are not all equal (for a nonempty
input), i.e. when the degree-1 least-squares problem has full rank. -/
def fitDenom (pts : List (ℚ × ℚ)) : ℚ :=
  fitN pts * fitSuu pts - fitSu pts * fitSu pts

/-- `np.polyfit(u, v, 1)` as `(slope, intercept)`, by the normal equations. -/
def polyfit1 (pts : List (ℚ × ℚ)) : ℚ × ℚ :=
  let slope := (fitN pts * fitSuv pts - fitSu pts * fitSv pts) / fitDenom pts
  (slope, (fitSv pts - slope * fitSu pts) / fitN pts)

/-- The guarded fit of `plot_complexity_verification`: nothing when either
list is empty or there are fewer than 2 sizes, otherwise the log-log
least-squares fit of the zipped series. -/
def complexity_fit (log : ℚ → ℚ) (s : Series ℚ) : Option (ℚ × ℚ) :=
  if s.times = [] ∨ s.xs = [] then none
  else if 1 < s.xs.length then
    some (polyfit1 ((s.xs.map (fun x => log (x : ℚ))).zip (s.times.map log)))
  else none

/-- From the claim's wording: a *valid* point has strictly positive
independent variable and strictly positive time.  (The source never
computes this; it is stated only to formalise the claim.) -/
def validPointCount (s : Series ℚ) : Nat :=
  ((s.xs.zip s.times).filter (fun p => decide (0 < p.1 ∧ 0 < p.2))).length

/-- Sum of squared residuals of the affine model `v ≈ a·u + b`; the
quantity `np.polyfit` minimises for degree 1. -/
def sse (a b : ℚ) (pts : List (ℚ × ℚ)) : ℚ :=
  (pts.map (fun p => (p.2 - (a * p.1 + b)) ^ 2)).sum

lemma residual_sum_eq (a b : ℚ) :
    ∀ pts : List (ℚ × ℚ),
      (pts.map (fun p => p.2 - (a * p.1 + b))).sum =
        fitSv pts - a * fitSu pts - b * fitN pts := by
  intro pts
  induction pts with
  | nil => simp [fitSv, fitSu, fitN]
  | cons p rest ih =>
    simp only [List.map_cons, List.sum_cons, fitSv, fitSu, fitN, List.length_cons] at ih ⊢
    push_cast
    rw [ih]
    ring

lemma residual_usum_eq (a b : ℚ) :
    ∀ pts : List (ℚ × ℚ),
      (pts.map (fun p => p.1 * (p.2 - (a * p.1 + b)))).sum =
        fitSuv pts - a * fitSuu pts - b * fitSu pts := by
  intro pts
  induction pts with
  | nil => simp [fitSuv, fitSuu, fitSu]
  | cons p rest ih =>
    simp only [List.map_cons, List.sum_cons, fitSuv, fitSuu, fitSu] at ih ⊢
    rw [ih]
    ring

lemma fitN_ne_zero {pts : List (ℚ × ℚ)} (h : pts ≠ []) : fitN pts ≠ 0 := by
  simp only [fitN, ne_eq, Nat.cast_eq_zero, List.length_eq_zero]
  exact h

/-- First normal equation: the residuals of the fitted line sum to zero. -/
lemma polyfit1_normal_one {pts : List (ℚ × ℚ)} (h : pts ≠ []) :
    (pts.map (fun p => p.2 - ((polyfit1 pts).1 * p.1 + (polyfit1 pts).2))).sum = 0 := by
  have hN := fitN_ne_zero h
  rw [residual_sum_eq]
  simp only [polyfit1]
  field_simp

/-- Second normal equation: the `u`-weighted residuals of the fitted line
sum to zero (full-rank case). -/
lemma polyfit1_normal_u {pts : List (ℚ × ℚ)} (h : pts ≠ [])
    (hd : fitDenom pts ≠ 0) :
    (pts.map (fun p => p.1 * (p.2 - ((polyfit1 pts).1 * p.1 + (polyfit1 pts).2)))).sum = 0 := by
  have hN := fitN_ne_zero h
  have hd' : fitN pts * fitSuu pts - fitSu pts * fitSu pts ≠ 0 := by
    simpa [fitDenom] using hd
  rw [residual_usum_eq]
  simp only [polyfit1, fitDenom]
  field_simp
  ring

lemma sse_decomp (a b a' b' : ℚ) :
    ∀ pts : List (ℚ × ℚ),
      sse a b pts = sse a' b' pts
        + 2 * (a' - a) * (pts.map (fun p => p.1 * (p.2 - (a' * p.1 + b')))).sum
        + 2 * (b' - b) * (pts.map (fun p => p.2 - (a' * p.1 + b'))).sum
        + (pts.map (fun p => ((a' - a) * p.1 + (b' - b)) ^ 2)).sum := by
  intro pts
  induction pts with
  | nil => simp [sse]
  | cons p rest ih =>
    simp only [sse, List.map_cons, List.sum_cons] at ih ⊢
    linear_combination ih

/-- `np.polyfit(u, v, 1)` really is ordinary least squares: in the
full-rank case its output minimises the sum of squared residuals over all
affine models. -/
lemma polyfit1_optimal {pts : List (ℚ × ℚ)} (h : pts ≠ [])
    (hd : fitDenom pts ≠ 0) (a b : ℚ) :
    sse (polyfit1 pts).1 (polyfit1 pts).2 pts ≤ sse a b pts := by
  have h1 := polyfit1_normal_one h
  have h2 := polyfit1_normal_u h hd
  have hdec := sse_decomp a b (polyfit1 pts).1 (polyfit1 pts).2 pts
  rw [h1, h2] at hdec
  have hsq : 0 ≤ (pts.map
      (fun p => (((polyfit1 pts).1 - a) * p.1 + ((polyfit1 pts).2 - b)) ^ 2)).sum := by
    apply List.sum_nonneg
    intro q hq
    rcases List.mem_map.1 hq with ⟨p, _, rfl⟩
    positivity
  rw [hdec]
  linarith

/-- The least-squares output depends only on the multiset of points: it is
invariant under permutation of the series. -/
lemma polyfit1_perm {pts pts' : List (ℚ × ℚ)} (h : pts.Perm pts') :
    polyfit1 pts = polyfit1 pts' := by
  have hN : fitN pts = fitN pts' := by simp [fitN, h.length_eq]
  have hSu : fitSu pts = fitSu pts' := (h.map Prod.fst).sum_eq
  have hSv : fitSv pts = fitSv pts' := (h.map Prod.snd).sum_eq
  have hSuu : fitSuu pts = fitSuu pts' := by
    simp only [fitSuu]
    exact (h.map fun p => p.1 * p.1).sum_eq
  have hSuv : fitSuv pts = fitSuv pts' := by
    simp only [fitSuv]
    exact (h.map fun p => p.1 * p.2).sum_eq
  simp only [polyfit1, fitDenom, hN, hSu, hSv, hSuu, hSuv]

/-! ## Speedup computation (comprehensive_benchmark.py lines 236-267)

The inner loop of `plot_speedup_comparison`:
```
for i, size in enumerate(data["sizes"]):
    if size in naive_sizes:
        naive_idx = naive_sizes.index(size)
        if naive_times[naive_idx] > 0 and data["times"][i] > 0:
            speedup = naive_times[naive_idx] / data["times"][i]
            speedups.append(speedup); sizes.append(size)
```
The two parallel appends are modelled as one list of `(size, speedup)`
pairs, and the per-index access `data["times"][i]` as the zip of the
target series (the two lists have equal length by the alignment
invariant).  Series times are taken as rationals here: the analysis code
path only distinguishes them through `> 0` comparisons and division. -/

/-- `naive_times[naive_sizes.index(size)]` guarded by
`if size in naive_sizes`. -/
def lookupBaseline (naive_sizes : List Nat) (naive_times : List ℚ) (size : Nat) :
    Option ℚ :=
  if size ∈ naive_sizes then naive_times.get? (naive_sizes.indexOf size) else none

/-- The contribution of one target sample `(size, time)`. -/
def speedupEntry (naive_sizes : List Nat) (naive_times : List ℚ)
    (p : Nat × ℚ) : Option (Nat × ℚ) :=
  match lookupBaseline naive_sizes naive_times p.1 with
  | some bt => if 0 < bt ∧ 0 < p.2 then some (p.1, bt / p.2) else none
  | none => none

/-- The accumulated `(size, speedup)` pairs for one target series. -/
def speedup_pairs (naive_times : List ℚ) (naive_sizes : List Nat)
    (tgt : List (Nat × ℚ)) : List (Nat × ℚ) :=
  tgt.foldl (fun acc p =>
    match speedupEntry naive_sizes naive_times p with
    | some e => acc ++ [e]
    | none => acc) []

/-- `plot_speedup_comparison` including its early return: when the Naive
(id 15) baseline time list is empty the whole analysis is skipped
(`none`); otherwise algorithm 15 itself and algorithms with empty series
contribute nothing, and every other algorithm gets its pair list. -/
def plot_speedup_comparison (results : Nat → Series ℚ) :
    Option (Nat → List (Nat × ℚ)) :=
  if (results 15).times = [] then none
  else some (fun a =>
    if a = 15 ∨ (results a).times = [] then []
    else speedup_pairs (results 15).times (results 15).xs ((results a).pairs))

lemma speedup_pairs_foldl (naive_times : List ℚ) (naive_sizes : List Nat) :
    ∀ (tgt : List (Nat × ℚ)) (acc : List (Nat × ℚ)),
      tgt.foldl (fun acc p =>
        match speedupEntry naive_sizes naive_times p with
        | some e => acc ++ [e]
        | none => acc) acc =
      acc ++ tgt.filterMap (speedupEntry naive_sizes naive_times) := by
  intro tgt
  induction tgt with
  | nil => intro acc; simp
  | cons p rest ih =>
    intro acc
    simp only [List.foldl_cons, List.filterMap_cons]
    cases h : speedupEntry naive_sizes naive_times p with
    | none => simp only [h]; rw [ih]
    | some e =>
      simp only [h]
      rw [ih]
      simp

lemma speedup_pairs_eq_filterMap (naive_times : List ℚ) (naive_sizes : List Nat)
    (tgt : List (Nat × ℚ)) :
    speedup_pairs naive_times naive_sizes tgt =
      tgt.filterMap (speedupEntry naive_sizes naive_times) := by
  unfold speedup_pairs
  rw [speedup_pairs_foldl]
  simp

/-- Under the alignment invariant (no duplicate baseline sizes, equal
lengths), the first-occurrence `index`/`[...]` lookup of the source is
exactly membership in the zipped baseline series. -/
lemma lookupBaseline_some_iff :
    ∀ (naive_sizes : List Nat) (naive_times : List ℚ),
      naive_sizes.Nodup → naive_sizes.length = naive_times.length →
      ∀ (s : Nat) (bt : ℚ),
        (lookupBaseline naive_sizes naive_times s = some bt ↔
          (s, bt) ∈ naive_sizes.zip naive_times) := by
  intro ns
  induction ns with
  | nil => intro nt _ _ s bt; simp [lookupBaseline]
  | cons s0 ns ih =>
    intro nt hnd hlen s bt
    cases nt with
    | nil => simp at hlen
    | cons bt0 nt =>
      rw [List.nodup_cons] at hnd
      have hlen' : ns.length = nt.length := by
        simpa using hlen
      by_cases hs : s = s0
      · subst hs
        simp only [lookupBaseline, List.mem_cons, true_or, if_true,
          List.indexOf_cons_self, List.get?_cons_zero, List.zip_cons_cons,
          List.mem_cons]
        constructor
        · intro h
          rw [Option.some_inj] at h
          subst h
          exact Or.inl rfl
        · intro hmem
          rcases hmem with heq | hmem'
          · rw [Option.some_inj]
            have := congrArg Prod.snd heq
            simpa using this.symm
          · exact absurd (List.of_mem_zip hmem').1 hnd.1
      · have hs0 : s0 ≠ s := fun h => hs h.symm
        have h2 := ih nt hnd.2 hlen' s bt
        simp only [lookupBaseline, List.mem_cons, hs, false_or,
          List.indexOf_cons_ne _ hs0, List.get?_cons_succ, List.zip_cons_cons,
          List.mem_cons]
        by_cases hmem : s ∈ ns
        · simp only [lookupBaseline, hmem, if_true] at h2
          simp only [hmem, if_true]
          rw [h2]
          constructor
          · intro h
            exact Or.inr h
          · intro h
            rcases h with heq | h'
            · exact absurd (congrArg Prod.fst heq) hs
            · exact h'
        · simp only [hmem, if_false]
          constructor
          · intro h
            exact absurd h (by simp)
          · intro h
            rcases h with heq | h'
            · exact absurd (congrArg Prod.fst heq) hs
            · exact absurd (List.of_mem_zip h').1 hmem

lemma speedupEntry_of_lookup_none {ns : List Nat} {nt : List ℚ} {p : Nat × ℚ}
    (h : lookupBaseline ns nt p.1 = none) : speedupEntry ns nt p = none := by
  unfold speedupEntry
  rw [h]

lemma speedupEntry_of_lookup_some {ns : List Nat} {nt : List ℚ} {p : Nat × ℚ}
    {bt : ℚ} (h : lookupBaseline ns nt p.1 = some bt) :
    speedupEntry ns nt p =
      if 0 < bt ∧ 0 < p.2 then some (p.1, bt / p.2) else none := by
  unfold speedupEntry
  rw [h]

lemma speedupEntry_some_iff {ns : List Nat} {nt : List ℚ}
    (hnd : ns.Nodup) (hlen : ns.length = nt.length) (p e : Nat × ℚ) :
    speedupEntry ns nt p = some e ↔
      ∃ bt, (p.1, bt) ∈ ns.zip nt ∧ 0 < bt ∧ 0 < p.2 ∧ e = (p.1, bt / p.2) := by
  cases hl : lookupBaseline ns nt p.1 with
  | none =>
    rw [speedupEntry_of_lookup_none hl]
    constructor
    · intro h
      exact absurd h (by simp)
    · rintro ⟨bt, hmem, -, -, -⟩
      have := (lookupBaseline_some_iff ns nt hnd hlen p.1 bt).2 hmem
      rw [hl] at this
      exact absurd this (by simp)
  | some bt0 =>
    rw [speedupEntry_of_lookup_some hl]
    rw [lookupBaseline_some_iff ns nt hnd hlen] at hl
    by_cases hpos : 0 < bt0 ∧ 0 < p.2
    · rw [if_pos hpos]
      constructor
      · intro h
        exact ⟨bt0, hl, hpos.1, hpos.2, (Option.some_inj.1 h).symm⟩
      · rintro ⟨bt, hmem, hbt, hpt, rfl⟩
        have hbteq : bt = bt0 := by
          have h1 := (lookupBaseline_some_iff ns nt hnd hlen p.1 bt).2 hmem
          have h2 := (lookupBaseline_some_iff ns nt hnd hlen p.1 bt0).2 hl
          rw [h1] at h2
          exact Option.some_inj.1 h2
        rw [hbteq]
    · rw [if_neg hpos]
      constructor
      · intro h
        exact absurd h (by simp)
      · rintro ⟨bt, hmem, hbt, hpt, -⟩
        have hbteq : bt = bt0 := by
          have h1 := (lookupBaseline_some_iff ns nt hnd hlen p.1 bt).2 hmem
          have h2 := (lookupBaseline_some_iff ns nt hnd hlen p.1 bt0).2 hl
          rw [h1] at h2
          exact Option.some_inj.1 h2
        exact absurd ⟨hbteq ▸ hbt, hpt⟩ hpos

/-- Membership characterisation of the speedup output: a pair appears only
for sizes present in both series with strictly positive times in both, and
its value is exactly `baseline_time / target_time`. -/
lemma speedup_pairs_mem_iff {ns : List Nat} {nt : List ℚ}
    (hnd : ns.Nodup) (hlen : ns.length = nt.length)
    (tgt : List (Nat × ℚ)) (x : Nat) (r : ℚ) :
    (x, r) ∈ speedup_pairs nt ns tgt ↔
      ∃ bt tt, (x, bt) ∈ ns.zip nt ∧ (x, tt) ∈ tgt ∧
        0 < bt ∧ 0 < tt ∧ r = bt / tt := by
  rw [speedup_pairs_eq_filterMap, List.mem_filterMap]
  constructor
  · rintro ⟨p, hp, he⟩
    rw [speedupEntry_some_iff hnd hlen] at he
    rcases he with ⟨bt, hmem, hbt, hpt, heq⟩
    have hx : x = p.1 := congrArg Prod.fst heq
    have hr : r = bt / p.2 := congrArg Prod.snd heq
    subst hx
    exact ⟨bt, p.2, hmem, by simpa using hp, hbt, hpt, hr⟩
  · rintro ⟨bt, tt, hbase, htgt, hbt, htt, rfl⟩
    refine ⟨(x, tt), htgt, ?_⟩
    exact (speedupEntry_some_iff hnd hlen _ _).2 ⟨bt, hbase, hbt, htt, rfl⟩

/-! ## benchmark_runner.py (`run_benchmark`, lines 25-70)

Unlike the comprehensive driver, this script appends an entry for *every*
configuration: on a non-zero exit status or a `ValueError` from `float`
it sets `time_taken = 0`, and on any exception it appends `0` directly —
so each failure is recorded as the time `0.0`.  The per-algorithm lists
`results[name]` (names are in bijection with ids) are modelled keyed by
algorithm id. -/

/-- `SIZES` (benchmark_runner.py, line 9). -/
def RUNNER_SIZES : List Nat := [10000, 50000, 100000, 500000, 1000000]

/-- The keys of `ALGORITHMS` (benchmark_runner.py, lines 10-17). -/
def RUNNER_ALGORITHM_IDS : List Nat := [3, 4, 5, 6, 11, 12]

/-- The time recorded for one invocation by `run_benchmark`'s inner loop:
the parsed stdout on success, `0` on every failure path. -/
def run_benchmark_step (r : RunOutcome) : PyFloat :=
  match r with
  | .spawnFailure => .finite 0
  | .timeoutExpired => .finite 0
  | .exited rc out => if rc ≠ 0 then .finite 0 else (pyFloat out).getD (.finite 0)

/-- One outer-loop iteration of `run_benchmark`: every algorithm appends
exactly one entry at configuration `size`. -/
def runnerStepConfig (exec : Nat → Nat → RunOutcome)
    (res : Nat → List PyFloat) (size : Nat) : Nat → List PyFloat :=
  RUNNER_ALGORITHM_IDS.foldl
    (fun r a => fun b => if b = a then r b ++ [run_benchmark_step (exec a size)] else r b)
    res

/-- The whole `run_benchmark` accumulation, with the subprocess outcomes
abstracted as `exec : algorithm id → size → RunOutcome`. -/
def run_benchmark_results (exec : Nat → Nat → RunOutcome) : Nat → List PyFloat :=
  RUNNER_SIZES.foldl (runnerStepConfig exec) (fun _ => [])

/-! ## python_regex_bench.py

The script is a straight-line program: argument-count check, two file
reads, one timed `re.finditer`, one `print`.  Its environment (argument
count, whether each read raises, whether the regex engine raises, the
match count and the elapsed milliseconds) is the model's input; the
output is the single printed line and the process exit status. -/

/-- Python `str(n)` for a natural number: its decimal digits. -/
def natToDigits (n : Nat) : List Char :=
  if n < 10 then [Char.ofNat (48 + n)]
  else natToDigits (n / 10) ++ [Char.ofNat (48 + n % 10)]
decreasing_by
  exact Nat.div_lt_self (by omega) (by omega)

/-- Python `f"{q:.4f}"` for a non-negative rational: integer part, a dot,
then exactly four fractional digits.  (CPython rounds ties to even on the
underlying double; `round` here is rounding half up — the two agree except
at exact half-ties of the fourth decimal, which no statement below
depends on.) -/
def format4 (q : ℚ) : List Char :=
  let m : Nat := (round (q * 10000)).toNat
  natToDigits (m / 10000) ++ '.' ::
    (List.replicate (4 - (natToDigits (m % 10000)).length) '0' ++ natToDigits (m % 10000))

/-- The success line `f"{count} {time_ms:.4f}"`. -/
def formatLine (count : Nat) (time_ms : ℚ) : List Char :=
  natToDigits count ++ ' ' :: format4 time_ms

/-- Result of opening and reading one file. -/
inductive FileRead where
  | ok (content : String)
  | readError

/-- The environment one invocation of the script runs in. -/
structure ScriptEnv where
  argc : Nat
  text_read : FileRead
  pattern_read : FileRead
  regex_ok : Bool
  match_count : Nat
  elapsed_ms : ℚ

/-- What the script emits: the one printed stdout line and the exit status. -/
structure ScriptResult where
  stdout_line : List Char
  exit_code : Nat
  deriving DecidableEq

/-- The line printed on every failure path: `"0 0.0"`. -/
def failLine : List Char := "0 0.0".toList

/-- The script body: wrong argument count prints `"0 0.0"` and exits 0;
any exception from the reads or the regex engine is caught by
`except Exception` and prints `"0 0.0"`; the success path prints
`f"{count} {time_ms:.4f}"`; every path falls off the end (or calls
`sys.exit(0)`), so the exit status is always 0. -/
def python_regex_bench (env : ScriptEnv) : ScriptResult :=
  if env.argc ≠ 3 then ⟨failLine, 0⟩
  else
    match env.text_read, env.pattern_read with
    | .readError, _ => ⟨failLine, 0⟩
    | .ok _, .readError => ⟨failLine, 0⟩
    | .ok _, .ok _ =>
      if env.regex_ok then ⟨formatLine env.match_count env.elapsed_ms, 0⟩
      else ⟨failLine, 0⟩

/-- The failure condition of the script: wrong argument count, an
unreadable file, or a regex error. -/
def scriptFails (env : ScriptEnv) : Bool :=
  decide (env.argc ≠ 3) ||
    (match env.text_read with | .readError => true | .ok _ => false) ||
    (match env.pattern_read with | .readError => true | .ok _ => false) ||
    !env.regex_ok

/-- The shape `'<count> <time_ms>'`: a nonempty digit run, one space, a
nonempty digit run, a dot, a nonempty digit run — in particular a single
line. -/
def isCountTimeLine (l : List Char) : Bool :=
  let p := l.span Char.isDigit
  !p.1.isEmpty &&
    match p.2 with
    | ' ' :: b =>
      let p2 := b.span Char.isDigit
      !p2.1.isEmpty &&
        (match p2.2 with
         | '.' :: fr => !fr.isEmpty && fr.all Char.isDigit
         | _ => false)
    | _ => false

/-- How a consumer of the executable interface reads the line back: the
match count and the elapsed time (reusing the Python float grammar). -/
def parseCountTime (l : List Char) : Option (Nat × ℚ) :=
  let p := l.span Char.isDigit
  match p.2 with
  | ' ' :: b =>
    if p.1.isEmpty then none
    else
      (pyFloatOfChars b).bind (fun t =>
        match t with
        | .finite q => some (digitsToNat p.1, q)
        | _ => none)
  | _ => none

lemma natToDigits_ne_nil (n : Nat) : natToDigits n ≠ [] := by
  rw [natToDigits]
  split <;> simp

lemma char_ofNat_digit_isDigit : ∀ m : Nat, m < 10 → (Char.ofNat (48 + m)).isDigit = true := by
  decide

lemma natToDigits_all_digit (n : Nat) : ∀ c ∈ natToDigits n, c.isDigit = true := by
  induction n using Nat.strong_induction_on with
  | _ n ih =>
    rw [natToDigits]
    by_cases h : n < 10
    · simp only [if_pos h]
      intro c hc
      rw [List.mem_singleton] at hc
      subst hc
      exact char_ofNat_digit_isDigit n h
    · simp only [if_neg h]
      intro c hc
      rcases List.mem_append.1 hc with h1 | h2
      · exact ih (n / 10) (Nat.div_lt_self (by omega) (by omega)) c h1
      · rw [List.mem_singleton] at h2
        subst h2
        exact char_ofNat_digit_isDigit (n % 10) (Nat.mod_lt n (by omega))

lemma span_digits_append (a : List Char) (c : Char) (r : List Char)
    (ha : ∀ x ∈ a, x.isDigit = true) (hc : c.isDigit = false) :
    (a ++ c :: r).span Char.isDigit = (a, c :: r) := by
  rw [List.span_eq_take_drop]
  rw [List.takeWhile_append_of_pos ha, List.dropWhile_append_of_pos ha]
  rw [List.takeWhile_cons_of_neg (by simp [hc]),
    List.dropWhile_cons_of_neg (by simp [hc])]
  simp

lemma format4_parts (q : ℚ) : ∃ ip fr : List Char,
    format4 q = ip ++ '.' :: fr ∧ ip ≠ [] ∧ fr ≠ [] ∧
      (∀ c ∈ ip, c.isDigit = true) ∧ (∀ c ∈ fr, c.isDigit = true) := by
  refine ⟨natToDigits ((round (q * 10000)).toNat / 10000),
    List.replicate (4 - (natToDigits ((round (q * 10000)).toNat % 10000)).length) '0' ++
      natToDigits ((round (q * 10000)).toNat % 10000), rfl,
    natToDigits_ne_nil _, ?_, natToDigits_all_digit _, ?_⟩
  · intro h
    rw [List.append_eq_nil] at h
    exact natToDigits_ne_nil _ h.2
  · intro c hc
    rcases List.mem_append.1 hc with h1 | h2
    · rw [List.eq_of_mem_replicate h1]
      decide
    · exact natToDigits_all_digit _ c h2

lemma isCountTimeLine_formatLine (n : Nat) (q : ℚ) :
    isCountTimeLine (formatLine n q) = true := by
  obtain ⟨ip, fr, hq, hip, hfr, hipd, hfrd⟩ := format4_parts q
  unfold isCountTimeLine formatLine
  rw [hq,
    span_digits_append (natToDigits n) ' ' (ip ++ '.' :: fr)
      (natToDigits_all_digit n) (by decide)]
  simp only
  rw [span_digits_append ip '.' fr hipd (by decide)]
  simp only [Bool.and_eq_true, Bool.not_eq_true', List.isEmpty_eq_false,
    List.all_eq_true]
  exact ⟨natToDigits_ne_nil n, hip, hfr, hfrd⟩

lemma formatLine_chars (n : Nat) (q : ℚ) :
    ∀ c ∈ formatLine n q, c.isDigit = true ∨ c = ' ' ∨ c = '.' := by
  obtain ⟨ip, fr, hq, -, -, hipd, hfrd⟩ := format4_parts q
  unfold formatLine
  rw [hq]
  intro c hc
  rcases List.mem_append.1 hc with h1 | h2
  · exact Or.inl (natToDigits_all_digit n c h1)
  · rcases List.mem_cons.1 h2 with rfl | h3
    · exact Or.inr (Or.inl rfl)
    · rcases List.mem_append.1 h3 with h4 | h5
      · exact Or.inl (hipd c h4)
      · rcases List.mem_cons.1 h5 with rfl | h6
        · exact Or.inr (Or.inr rfl)
        · exact Or.inl (hfrd c h6)

lemma newline_not_mem_formatLine (n : Nat) (q : ℚ) :
    '\n' ∉ formatLine n q := by
  intro h
  rcases formatLine_chars n q _ h with h1 | h2 | h3
  · exact absurd h1 (by decide)
  · exact absurd h2 (by decide)
  · exact absurd h3 (by decide)

lemma embed_pattern_length_of_le (seq : List Char) (size pattern_len start : Nat)
    (hsz : seq.length = size) (hple : pattern_len ≤ size)
    (hstart : start ∈ embedOffsets size pattern_len) :
    (embed_pattern seq pattern_len start).length = pattern_len := by
  have hb : start ≤ size - pattern_len := by
    simpa [embedOffsets, embedOffsetUpper] using hstart
  unfold embed_pattern
  rw [List.length_take, List.length_drop, hsz]
  omega

lemma embed_pattern_getElem (seq : List Char) (pattern_len start j : Nat)
    (hj : j < pattern_len) :
    (embed_pattern seq pattern_len start)[j]? = seq[start + j]? := by
  unfold embed_pattern
  rw [List.getElem?_take_of_lt hj, List.getElem?_drop]

/-! # Claim theorems -/

/-- C1: for every algorithm, at every point during and after a size sweep
or a pattern-length sweep, the time sequence and the independent-variable
sequence have equal length, and the i-th time is precisely the successful
runner outcome measured at the i-th independent-variable value (stated as
a `map` equation, which fixes both the pairing and the order).  The third
conjunct states it for `runSweep` over an arbitrary configuration list,
which covers every prefix of a sweep, i.e. every intermediate point. -/
theorem sample_series_alignment :
    ∀ (α : Type) (runner : Nat → Nat → Option α) (a : Nat),
      (∀ plen : Nat,
        ((benchmark_varying_text_size plen runner) a).times.length =
            ((benchmark_varying_text_size plen runner) a).xs.length ∧
          ((benchmark_varying_text_size plen runner) a).xs.map (runner a) =
            ((benchmark_varying_text_size plen runner) a).times.map some) ∧
      (((benchmark_varying_pattern_length runner) a).times.length =
          ((benchmark_varying_pattern_length runner) a).xs.length ∧
        ((benchmark_varying_pattern_length runner) a).xs.map (runner a) =
          ((benchmark_varying_pattern_length runner) a).times.map some) ∧
      ∀ (skip : Nat → Nat → Bool) (configs : List Nat),
        (runSweep runner skip configs a).times.length =
            (runSweep runner skip configs a).xs.length ∧
          (runSweep runner skip configs a).xs.map (runner a) =
            (runSweep runner skip configs a).times.map some := by
  intro α runner a
  exact ⟨fun plen => runSweep_aligned runner _ SIZES a,
    runSweep_aligned runner _ PATTERN_LENGTHS a,
    fun skip configs => runSweep_aligned runner skip configs a⟩

/-- C2 counterexample: the claim demands that a failed configuration leave
a missing-outcome *entry* in the series.  The code appends nothing at all:
with every invocation failing (here: a spawn failure on each call), the
size-sweep series of algorithm 3 contains no entry at configuration 1000,
even though algorithm 3 is in the catalog, 1000 is a swept size, and the
runner was invoked there and failed. -/
theorem failure_entry_counterexample :
    (3 ∈ ALGORITHM_IDS ∧ 1000 ∈ SIZES ∧
      run_algorithm RunOutcome.spawnFailure = none) ∧
    1000 ∉ ((benchmark_varying_text_size 10
      (fun _ _ => run_algorithm RunOutcome.spawnFailure)) 3).xs := by
  exact ⟨⟨by decide, by decide, rfl⟩, by decide⟩

/-- C2 amended: a configuration where the runner fails contributes *no*
entry to that algorithm's series (both parallel sequences omit it, which
preserves their alignment), and the sweep proceeds unconditionally: every
configuration at which the runner succeeds contributes its `(value, time)`
pair regardless of failures elsewhere. -/
theorem failed_config_skipped_sweep_continues :
    ∀ (α : Type) (runner : Nat → Nat → Option α) (skip : Nat → Nat → Bool)
      (configs : List Nat) (a c : Nat),
      (runner a c = none → c ∉ (runSweep runner skip configs a).xs) ∧
      (∀ t : α, a ∈ ALGORITHM_IDS → c ∈ configs → skip a c = false →
        runner a c = some t →
        (c, t) ∈ (runSweep runner skip configs a).pairs) := by
  intro α runner skip configs a c
  constructor
  · intro hnone hc
    rcases mem_xs_of_aligned (runSweep_aligned runner skip configs a) hc with ⟨t, ht⟩
    rw [hnone] at ht
    exact absurd ht (by simp)
  · intro t ha hc hsk hrun
    rw [runSweep_apply]
    simp only [ha, if_true]
    exact sweepAlgoFrom_complete runner skip a configs ⟨[], []⟩ ⟨rfl, rfl⟩ hc hsk hrun

/-- Witness for the C2 amendment at a concrete sweep: a runner failing at
size 5000 and succeeding elsewhere leaves no entry at 5000 but still
records `(50000, 7)`. -/
theorem failed_config_skipped_sweep_continues_witness :
    5000 ∉ (runSweep (fun _ x => if x = 5000 then (none : Option ℚ) else some 7)
        (fun _ _ => false) SIZES 3).xs ∧
      (50000, (7 : ℚ)) ∈ (runSweep (fun _ x => if x = 5000 then (none : Option ℚ) else some 7)
        (fun _ _ => false) SIZES 3).pairs :=
  ⟨(failed_config_skipped_sweep_continues ℚ _ _ SIZES 3 5000).1 (by decide),
    (failed_config_skipped_sweep_continues ℚ _ _ SIZES 3 50000).2 7
      (by decide) (by decide) rfl (by decide)⟩

/-- C3 counterexample: stdout `"-5.0"` with exit status 0 parses through
`float` and is returned as the elapsed time `-5.0` — a negative value —
instead of being classified as an `UnparsableOutput` failure. -/
theorem negative_time_counterexample :
    run_algorithm (RunOutcome.exited 0 "-5.0") = some (PyFloat.finite (-5)) ∧
      (-5 : ℚ) < 0 := by
  exact ⟨by with_unfolding_all decide, by norm_num⟩

/-- C3 amended: `run_algorithm` returns `None` exactly on spawn failure,
timeout, a non-zero exit status, or stdout that `float(...)` rejects; when
the process exits 0 it returns whatever `float` parses, unchanged —
negative, infinite and NaN values are returned as elapsed times, not
classified as failures. -/
theorem run_algorithm_classification :
    run_algorithm RunOutcome.spawnFailure = none ∧
    run_algorithm RunOutcome.timeoutExpired = none ∧
    (∀ (rc : Int) (out : String), rc ≠ 0 →
      run_algorithm (RunOutcome.exited rc out) = none) ∧
    (∀ out : String, run_algorithm (RunOutcome.exited 0 out) = pyFloat out) := by
  refine ⟨rfl, rfl, ?_, ?_⟩
  · intro rc out hrc
    simp [run_algorithm, hrc]
  · intro out
    simp [run_algorithm]

/-- Witness for the C3 amendment: a non-zero exit is rejected, exit 0 with
parseable stdout is passed through. -/
theorem run_algorithm_classification_witness :
    ((1 : Int) ≠ 0 ∧ run_algorithm (RunOutcome.exited 1 "12.0") = none) ∧
      run_algorithm (RunOutcome.exited 0 "12.0") = pyFloat "12.0" :=
  ⟨⟨by decide, run_algorithm_classification.2.2.1 1 "12.0" (by decide)⟩,
    run_algorithm_classification.2.2.2 "12.0"⟩

/-- C4 counterexample: the claim covers every external invocation
performed during a sweep, but `run_benchmark` in benchmark_runner.py
builds its `subprocess.run` call without any `timeout=` keyword — those
invocations are not bounded by the 30-second deadline. -/
theorem runner_call_unbounded_counterexample :
    (runner_call 3 "bench_temp/seq_10000.fasta" "ACGTACGTAC").timeout = none ∧
      (none : Option Nat) ≠ some 30 := by
  exact ⟨rfl, by decide⟩

/-- C4 amended: every invocation issued by the comprehensive driver's
`run_algorithm` carries `timeout=30`; on expiry `run_algorithm` returns
`None` (so the sample is simply absent, with no retry) and the sweep
proceeds — a configuration that succeeds still contributes its sample even
when another configuration's invocation timed out.  The invocations of the
simple benchmark runner carry no deadline at all. -/
theorem timeout_configuration :
    (∀ (ex : String) (a : Nat) (f p : String),
        (comprehensive_call ex a f p).timeout = some 30) ∧
    run_algorithm RunOutcome.timeoutExpired = none ∧
    (∀ (a : Nat) (f p : String), (runner_call a f p).timeout = none) ∧
    (∀ (runner : Nat → Nat → Option ℚ) (a c c' : Nat) (t : ℚ),
        a ∈ ALGORITHM_IDS → c' ∈ SIZES →
        runner a c = none → runner a c' = some t →
        (c', t) ∈ ((benchmark_varying_text_size 10 runner) a).pairs) := by
  refine ⟨fun _ _ _ _ => rfl, rfl, fun _ _ _ => rfl, ?_⟩
  intro runner a c c' t ha hc' _hnone hrun
  unfold benchmark_varying_text_size
  rw [runSweep_apply]
  simp only [ha, if_true]
  refine sweepAlgoFrom_complete runner _ a SIZES ⟨[], []⟩ ⟨rfl, rfl⟩ hc' ?_ hrun
  simp

/-- Witness for the C4 amendment: a runner that times out (returns `None`)
at 5000 still yields the sample `(10000, 9)`. -/
theorem timeout_configuration_witness :
    (10000, (9 : ℚ)) ∈ ((benchmark_varying_text_size 10
      (fun _ x => if x = 5000 then (none : Option ℚ) else some 9)) 4).pairs :=
  timeout_configuration.2.2.2 _ 4 5000 10000 9 (by decide) (by decide) rfl rfl

/-- C5 counterexample: for pattern length 10 on a corpus of size 3
(`max(0, 3 - 10) = 0`) the embedding does not fail with `InvalidLength`:
the offset support collapses to `{0}` and a pattern — the whole, shorter
corpus — is returned. -/
theorem embed_overlong_counterexample :
    embedOffsets 3 10 = {0} ∧
      embed_pattern ['A', 'C', 'G'] 10 0 = ['A', 'C', 'G'] ∧
      (embed_pattern ['A', 'C', 'G'] 10 0).length ≠ 10 := by
  exact ⟨by decide, by decide, by decide⟩

/-- C5 amended: the offset is drawn uniformly from
`[0, max(0, size - pattern_len)]`; when `pattern_len ≤ size` this support
is exactly the integers `0 .. size - pattern_len` (for corpus size 50 and
pattern length 10: exactly `0 .. 40`) and the returned pattern is the
verbatim corpus substring of length `pattern_len` at the chosen offset.
When `pattern_len > size` the embedding does not fail: the offset is 0 and
the returned pattern is the whole (shorter) corpus. -/
theorem embed_pattern_spec :
    (∀ size pattern_len o : Nat, pattern_len ≤ size →
        (o ∈ embedOffsets size pattern_len ↔ o ≤ size - pattern_len)) ∧
    (∀ o : Nat, o ∈ embedOffsets 50 10 ↔ o ≤ 40) ∧
    (∀ (seq : List Char) (size pattern_len start : Nat),
        seq.length = size → pattern_len ≤ size →
        start ∈ embedOffsets size pattern_len →
        (embed_pattern seq pattern_len start).length = pattern_len ∧
          ∀ j : Nat, j < pattern_len →
            (embed_pattern seq pattern_len start)[j]? = seq[start + j]?) ∧
    (∀ (seq : List Char) (pattern_len : Nat), seq.length < pattern_len →
        embed_pattern seq pattern_len 0 = seq) := by
  refine ⟨?_, ?_, ?_, ?_⟩
  · intro size plen o _h
    simp [embedOffsets, embedOffsetUpper, Finset.mem_Icc]
  · intro o
    simp [embedOffsets, embedOffsetUpper, Finset.mem_Icc]
  · intro seq size plen start h1 h2 h3
    exact ⟨embed_pattern_length_of_le seq size plen start h1 h2 h3,
      fun j hj => embed_pattern_getElem seq plen start j hj⟩
  · intro seq plen h
    unfold embed_pattern
    rw [List.drop_zero, List.take_of_length_le (Nat.le_of_lt h)]

/-- Witness for the C5 amendment on a concrete corpus of size 8 with
pattern length 3 at offset 2. -/
theorem embed_pattern_spec_witness :
    ((['A', 'C', 'G', 'T', 'A', 'C', 'G', 'T'] : List Char).length = 8 ∧
        (3 : Nat) ≤ 8 ∧ 2 ∈ embedOffsets 8 3) ∧
      (embed_pattern ['A', 'C', 'G', 'T', 'A', 'C', 'G', 'T'] 3 2).length = 3 ∧
      (embed_pattern ['A', 'C', 'G', 'T', 'A', 'C', 'G', 'T'] 3 2)[0]? =
        (['A', 'C', 'G', 'T', 'A', 'C', 'G', 'T'] : List Char)[2 + 0]? :=
  ⟨⟨by decide, by decide, by decide⟩,
    (embed_pattern_spec.2.2.1 _ 8 3 2 (by decide) (by decide) (by decide)).1,
    (embed_pattern_spec.2.2.1 _ 8 3 2 (by decide) (by decide) (by decide)).2 0 (by decide)⟩

/-- C6 counterexample: a series of two points of which only one is valid
(time 0 at size 1000) still gets a fit attempted — the code guards only on
`len(sizes) > 1` and never filters for positivity, contradicting "returns
a result only when the series has at least 2 valid points". -/
theorem fit_validity_counterexample :
    validPointCount ⟨[0, 2], [1000, 5000]⟩ = 1 ∧
      complexity_fit id ⟨[0, 2], [1000, 5000]⟩ ≠ none := by
  with_unfolding_all decide

/-- C6 amended: the fit is skipped exactly when a series list is empty or
fewer than two points exist — point validity (positivity) is never
checked; when attempted, the result is `np.polyfit` of the log-log points,
a deterministic, permutation-invariant function of the points which in the
full-rank case is the true ordinary-least-squares minimiser. -/
theorem complexity_fit_spec :
    (∀ (log : ℚ → ℚ) (s : Series ℚ),
        complexity_fit log s = none ↔
          (s.times = [] ∨ s.xs = [] ∨ s.xs.length ≤ 1)) ∧
    (∀ (log : ℚ → ℚ) (s : Series ℚ), s.times ≠ [] → s.xs ≠ [] →
        1 < s.xs.length →
        complexity_fit log s =
          some (polyfit1 ((s.xs.map (fun x => log (x : ℚ))).zip (s.times.map log)))) ∧
    (∀ pts pts' : List (ℚ × ℚ), pts.Perm pts' → polyfit1 pts = polyfit1 pts') ∧
    (∀ (pts : List (ℚ × ℚ)) (a b : ℚ), pts ≠ [] → fitDenom pts ≠ 0 →
        sse (polyfit1 pts).1 (polyfit1 pts).2 pts ≤ sse a b pts) := by
  refine ⟨?_, ?_, fun pts pts' h => polyfit1_perm h,
    fun pts a b h hd => polyfit1_optimal h hd a b⟩
  · intro log s
    unfold complexity_fit
    by_cases h1 : s.times = [] ∨ s.xs = []
    · rw [if_pos h1]
      constructor
      · intro _
        rcases h1 with h | h
        · exact Or.inl h
        · exact Or.inr (Or.inl h)
      · intro _
        rfl
    · rw [if_neg h1]
      by_cases h2 : 1 < s.xs.length
      · rw [if_pos h2]
        constructor
        · intro h
          exact absurd h (by simp)
        · intro h
          rcases h with h | h | h
          · exact absurd (Or.inl h) h1
          · exact absurd (Or.inr h) h1
          · omega
      · rw [if_neg h2]
        constructor
        · intro _
          exact Or.inr (Or.inr (by omega))
        · intro _
          rfl
  · intro log s h1 h2 h3
    unfold complexity_fit
    rw [if_neg (by tauto), if_pos h3]

/-- Witness for the C6 amendment: the least-squares optimality applied to
the two points `(0,0), (1,2)` against the competitor line `v = 0`. -/
theorem complexity_fit_spec_witness :
    (([((0 : ℚ), (0 : ℚ)), (1, 2)] : List (ℚ × ℚ)) ≠ [] ∧
        fitDenom [((0 : ℚ), (0 : ℚ)), (1, 2)] ≠ 0) ∧
      sse (polyfit1 [((0 : ℚ), (0 : ℚ)), (1, 2)]).1
          (polyfit1 [((0 : ℚ), (0 : ℚ)), (1, 2)]).2 [((0 : ℚ), (0 : ℚ)), (1, 2)] ≤
        sse 0 0 [((0 : ℚ), (0 : ℚ)), (1, 2)] :=
  ⟨⟨by decide, by with_unfolding_all decide⟩,
    complexity_fit_spec.2.2.2 _ 0 0 (by decide) (by with_unfolding_all decide)⟩

/-- C7: the speedup computation emits, for exactly the sizes present in
both series with strictly positive times in both, the pair
`(size, baseline_time / target_time)` — so it never divides by zero and
never fabricates a value for an absent baseline point; baseline 120.0 and
target 12.0 at the same size yield exactly 10.0; an empty baseline series
short-circuits the whole analysis to a skip (`none`), not an error. -/
theorem speedup_computation_spec :
    (∀ (ns : List Nat) (nt : List ℚ) (tgt : List (Nat × ℚ)) (x : Nat) (r : ℚ),
        ns.Nodup → ns.length = nt.length →
        ((x, r) ∈ speedup_pairs nt ns tgt ↔
          ∃ bt tt, (x, bt) ∈ ns.zip nt ∧ (x, tt) ∈ tgt ∧
            0 < bt ∧ 0 < tt ∧ r = bt / tt)) ∧
    (∀ results : Nat → Series ℚ, (results 15).times = [] →
        plot_speedup_comparison results = none) ∧
    speedup_pairs [120] [100000] [(100000, 12)] = [(100000, 10)] := by
  refine ⟨?_, ?_, ?_⟩
  · intro ns nt tgt x r hnd hlen
    exact speedup_pairs_mem_iff hnd hlen tgt x r
  · intro results h
    unfold plot_speedup_comparison
    rw [if_pos h]
  · with_unfolding_all decide

/-- Witness for C7: the 120 ms / 12 ms scenario run through the membership
characterisation. -/
theorem speedup_computation_spec_witness :
    (([100000] : List Nat).Nodup ∧
        ([100000] : List Nat).length = ([120] : List ℚ).length) ∧
      (100000, (10 : ℚ)) ∈ speedup_pairs [120] [100000] [(100000, 12)] :=
  ⟨⟨by decide, rfl⟩,
    (speedup_computation_spec.1 [100000] [120] [(100000, 12)] 100000 10
        (by decide) rfl).2
      ⟨120, 12, by with_unfolding_all decide, by with_unfolding_all decide,
        by norm_num, by norm_num, by norm_num⟩⟩

/-- C8: an algorithm rejected by the applicability predicate contributes
no entry at that configuration — the Shift-Or series (id 6) of the
pattern-length sweep contains only lengths ≤ 64, in particular no entry at
the swept length 100, and there is no failure marker to record because
nothing is appended at all; other algorithms are unaffected: each
algorithm's series depends only on that algorithm's own runner outcomes. -/
theorem applicability_filter_frame :
    (∀ (α : Type) (runner : Nat → Nat → Option α) (x : Nat),
        x ∈ ((benchmark_varying_pattern_length runner) 6).xs → x ≤ 64) ∧
    (∀ (α : Type) (runner : Nat → Nat → Option α),
        100 ∉ ((benchmark_varying_pattern_length runner) 6).xs) ∧
    (∀ (α : Type) (runner runner' : Nat → Nat → Option α) (a : Nat),
        (∀ x, runner a x = runner' a x) →
        (benchmark_varying_pattern_length runner) a =
          (benchmark_varying_pattern_length runner') a) := by
  have key : ∀ (α : Type) (runner : Nat → Nat → Option α) (x : Nat),
      x ∈ ((benchmark_varying_pattern_length runner) 6).xs → x ≤ 64 := by
    intro α runner x hx
    unfold benchmark_varying_pattern_length at hx
    rw [runSweep_apply] at hx
    simp only [show (6 : Nat) ∈ ALGORITHM_IDS by decide, if_true] at hx
    rcases sweepAlgoFrom_xs_skip runner _ 6 PATTERN_LENGTHS ⟨[], []⟩ x hx with h | h
    · exact absurd h (List.not_mem_nil x)
    · simp only [decide_eq_false_iff_not, not_and, true_and] at h
      omega
  refine ⟨key, ?_, ?_⟩
  · intro α runner h100
    have := key α runner 100 h100
    omega
  · intro α runner runner' a hagree
    unfold benchmark_varying_pattern_length
    exact runSweep_runner_congr runner runner' _ PATTERN_LENGTHS a hagree

/-- Witness for C8: a concrete sweep where the Shift-Or runner is even
made to differ — algorithm 3's series is identical because it depends only
on algorithm 3's outcomes; and a concrete entry of the Shift-Or series is
indeed ≤ 64. -/
theorem applicability_filter_frame_witness :
    (5 ∈ ((benchmark_varying_pattern_length
          (fun _ _ => some (PyFloat.finite 1))) 6).xs ∧ 5 ≤ 64) ∧
      (benchmark_varying_pattern_length
          (fun a _ => if a = 6 then (none : Option ℚ) else some 1)) 3 =
        (benchmark_varying_pattern_length
          (fun a _ => if a = 6 then some 2 else some 1)) 3 :=
  ⟨⟨by with_unfolding_all decide,
      applicability_filter_frame.1 PyFloat (fun _ _ => some (PyFloat.finite 1)) 5
        (by with_unfolding_all decide)⟩,
    applicability_filter_frame.2.2 ℚ
      (fun a _ => if a = 6 then (none : Option ℚ) else some 1)
      (fun a _ => if a = 6 then some 2 else some 1) 3 (fun _ => rfl)⟩

/-- C9 counterexample: benchmark_runner.py coerces failures to the time
value 0.0 and appends it — a run in which every invocation exits with
status 1 gives algorithm 3 a series of five recorded 0.0 times, none of
which comes from a parsed stdout. -/
theorem zero_coercion_counterexample :
    run_benchmark_results (fun _ _ => RunOutcome.exited 1 "") 3 =
      [PyFloat.finite 0, PyFloat.finite 0, PyFloat.finite 0,
        PyFloat.finite 0, PyFloat.finite 0] := by
  with_unfolding_all decide

/-- C9 amended: in the comprehensive driver the claim holds — a value in
any series always comes from a successful invocation whose stdout parsed
(`run_algorithm` returns it only for exit status 0 with parseable stdout,
and the sweep stores only returned values).  In benchmark_runner.py,
however, every failure (non-zero exit, unparsable stdout via `getD`,
spawn exception) is recorded as the time 0. -/
theorem zero_coercion_split :
    (∀ (r : RunOutcome) (v : PyFloat), run_algorithm r = some v →
        ∃ out : String, r = RunOutcome.exited 0 out ∧ pyFloat out = some v) ∧
    (∀ (runner : Nat → Nat → Option PyFloat) (skip : Nat → Nat → Bool)
        (configs : List Nat) (a : Nat) (t : PyFloat),
        t ∈ (runSweep runner skip configs a).times →
        ∃ x : Nat, runner a x = some t) ∧
    (∀ (rc : Int) (out : String), rc ≠ 0 →
        run_benchmark_step (RunOutcome.exited rc out) = PyFloat.finite 0) ∧
    run_benchmark_step RunOutcome.spawnFailure = PyFloat.finite 0 := by
  refine ⟨?_, ?_, ?_, rfl⟩
  · intro r v h
    cases r with
    | spawnFailure => exact absurd h (by simp [run_algorithm])
    | timeoutExpired => exact absurd h (by simp [run_algorithm])
    | exited rc out =>
      by_cases hrc : rc = 0
      · subst hrc
        refine ⟨out, rfl, ?_⟩
        simpa [run_algorithm] using h
      · simp [run_algorithm, hrc] at h
  · intro runner skip configs a t ht
    exact mem_times_of_aligned (runSweep_aligned runner skip configs a) ht
  · intro rc out hrc
    simp [run_benchmark_step, hrc]

/-- Witness for the C9 amendment: a non-zero exit is recorded as 0 by the
simple runner, and a comprehensive-series value traces back to a parse. -/
theorem zero_coercion_split_witness :
    ((1 : Int) ≠ 0 ∧
        run_benchmark_step (RunOutcome.exited 1 "oops") = PyFloat.finite 0) ∧
      (∃ out : String, RunOutcome.exited 0 "2.5" = RunOutcome.exited 0 out ∧
        pyFloat out = some (PyFloat.finite (5 / 2))) :=
  ⟨⟨by decide, zero_coercion_split.2.2.1 1 "oops" (by decide)⟩,
    zero_coercion_split.1 (RunOutcome.exited 0 "2.5") (PyFloat.finite (5 / 2))
      (by with_unfolding_all decide)⟩

lemma script_output_cases (env : ScriptEnv) :
    (python_regex_bench env = ⟨failLine, 0⟩ ∧ scriptFails env = true) ∨
      (python_regex_bench env =
          ⟨formatLine env.match_count env.elapsed_ms, 0⟩ ∧
        scriptFails env = false) := by
  obtain ⟨argc, tr, pr, rok, mc, el⟩ := env
  unfold python_regex_bench scriptFails
  by_cases h3 : argc = 3
  · subst h3
    cases tr <;> cases pr <;> cases rok <;> simp
  · simp [h3]

/-- C10: for every invocation of the regex benchmark script — wrong
argument count, unreadable text or pattern file, invalid regex, or
success — the script prints exactly one line of the shape
`<count> <time_ms>` (digits, one space, digits, dot, digits; no newline
inside) and exits with status 0.  Every failure prints exactly `"0 0.0"`,
and that line parses at the external interface to the same
`(count, time) = (0, 0.0)` as a genuine zero-match, zero-time success
line — the two are numerically indistinguishable. -/
theorem python_regex_bench_spec :
    ∀ env : ScriptEnv, 0 ≤ env.elapsed_ms →
      (python_regex_bench env).exit_code = 0 ∧
      isCountTimeLine (python_regex_bench env).stdout_line = true ∧
      '\n' ∉ (python_regex_bench env).stdout_line ∧
      (scriptFails env = true → (python_regex_bench env).stdout_line = failLine) ∧
      (scriptFails env = false →
        (python_regex_bench env).stdout_line =
          formatLine env.match_count env.elapsed_ms) ∧
      parseCountTime failLine = some (0, 0) ∧
      parseCountTime (formatLine 0 0) = some (0, 0) := by
  intro env _hel
  have hp1 : parseCountTime failLine = some (0, 0) := by with_unfolding_all decide
  have hp2 : parseCountTime (formatLine 0 0) = some (0, 0) := by
    with_unfolding_all decide
  rcases script_output_cases env with ⟨hrun, hsf⟩ | ⟨hrun, hsf⟩
  · rw [hrun]
    refine ⟨rfl, by decide, by decide, fun _ => rfl, fun hc => ?_, hp1, hp2⟩
    rw [hsf] at hc
    cases hc
  · rw [hrun]
    refine ⟨rfl, isCountTimeLine_formatLine _ _,
      newline_not_mem_formatLine _ _, fun hc => ?_, fun _ => rfl, hp1, hp2⟩
    rw [hsf] at hc
    cases hc

/-- Witness for C10 at a concrete successful environment. -/
theorem python_regex_bench_spec_witness :
    (0 : ℚ) ≤ 5 ∧
      (python_regex_bench ⟨3, .ok "ACGT", .ok "A", true, 2, 5⟩).exit_code = 0 :=
  ⟨by norm_num,
    (python_regex_bench_spec ⟨3, .ok "ACGT", .ok "A", true, 2, 5⟩ (by norm_num)).1⟩

end Hashira
